import Mathlib

/-!
Shallow embedding of the drftr draft-engine library (src/draft_types.rs and
src/lib.rs).  Drafted items (`Box<dyn DraftItem>`) are observed by the engine
only through their `name()` string, so an item is embedded as its name.
Rust `u32`/`u64` counters never approach their bounds in the engine's
arithmetic (overflow would panic), so they are embedded as `Nat`.
-/

/-! ## draft_types.rs -/

inductive DraftType where
  | Snake
  | Linear
deriving DecidableEq

/-- One iteration of the `for` loop in `snake_draft`: at loop index `i`,
skip when `i % n == 0`, increment the walking seat during a forward half
cycle, decrement during a reverse half cycle. -/
def snakeStep (n seat i : Nat) : Nat :=
  if i % n = 0 then seat
  else if i % (2 * n) ≤ n then seat + 1
  else seat - 1

/-- The `for i in 0..=m` loop of `snake_draft`, folded over the inclusive
upper bound `m`.  (The Rust `next_seat` is a `u32`; under the invariant
proved below it never underflows, so `Nat` subtraction is faithful.) -/
def snakeLoop (n : Nat) : Nat → Nat
  | 0 => snakeStep n 0 0
  | i + 1 => snakeStep n (snakeLoop n i) (i + 1)

/-- `snake_draft` from src/draft_types.rs. -/
def snake_draft (total_picks number_of_drafters : Nat) : Nat :=
  snakeLoop number_of_drafters (total_picks + 1)

/-- `linear_draft` from src/draft_types.rs. -/
def linear_draft (total_picks number_of_drafters : Nat) : Nat :=
  (total_picks + 1) % number_of_drafters

/-- Modelled from the spec's words: the snake seat sequence
`0,1,...,n-1,n-1,n-2,...,1,0,0,1,...` — forward then reverse with period
`2*n`, seats `0` and `n-1` each taking two consecutive turns at every
direction change.  Element `k` is `k % (2n)` during the forward half and
`2n - 1 - k % (2n)` during the reverse half. -/
def snakeSeq (n k : Nat) : Nat :=
  if k % (2 * n) < n then k % (2 * n) else 2 * n - 1 - k % (2 * n)

lemma succ_mod_two_mul (n i : Nat) (hn : 0 < n) :
    (i + 1) % (2 * n) = if i % (2 * n) + 1 = 2 * n then 0 else i % (2 * n) + 1 := by
  have h2n : 1 < 2 * n := by omega
  have hr : i % (2 * n) < 2 * n := Nat.mod_lt _ (by omega)
  rw [Nat.add_mod, Nat.mod_eq_of_lt h2n]
  by_cases hc : i % (2 * n) + 1 = 2 * n
  · simp [hc]
  · rw [Nat.mod_eq_of_lt (by omega), if_neg hc]

lemma mod_of_mod_two_mul (n k : Nat) (hn : 0 < n) :
    k % n = if k % (2 * n) < n then k % (2 * n) else k % (2 * n) - n := by
  have hdvd : n ∣ 2 * n := ⟨2, by ring⟩
  have h1 : k % (2 * n) % n = k % n := Nat.mod_mod_of_dvd k hdvd
  have hr : k % (2 * n) < 2 * n := Nat.mod_lt _ (by omega)
  by_cases hc : k % (2 * n) < n
  · rw [if_pos hc, ← h1, Nat.mod_eq_of_lt hc]
  · rw [if_neg hc, ← h1, Nat.mod_eq_sub_mod (by omega), Nat.mod_eq_of_lt (by omega)]

/-- The incremental walk of `snake_draft` computes exactly the closed-form
snake seat sequence. -/
lemma snakeLoop_eq_snakeSeq (n : Nat) (hn : 0 < n) : ∀ i, snakeLoop n i = snakeSeq n i := by
  intro i
  induction i with
  | zero =>
    simp [snakeLoop, snakeStep, snakeSeq, hn]
  | succ i ih =>
    have hr : i % (2 * n) < 2 * n := Nat.mod_lt _ (by omega)
    have hs := succ_mod_two_mul n i hn
    have hm := mod_of_mod_two_mul n (i + 1) hn
    show snakeStep n (snakeLoop n i) (i + 1) = snakeSeq n (i + 1)
    rw [ih]
    by_cases h1 : i % (2 * n) + 1 = 2 * n
    · rw [if_pos h1] at hs
      rw [hs] at hm
      rw [if_pos (by omega : (0:Nat) < n)] at hm
      unfold snakeStep snakeSeq
      rw [hm, hs]
      split_ifs <;> first | contradiction | omega
    · rw [if_neg h1] at hs
      rw [hs] at hm
      by_cases h2 : i % (2 * n) + 1 < n
      · rw [if_pos h2] at hm
        unfold snakeStep snakeSeq
        rw [hm, hs]
        split_ifs <;> first | contradiction | omega
      · rw [if_neg h2] at hm
        unfold snakeStep snakeSeq
        rw [hm, hs]
        split_ifs <;> first | contradiction | omega

lemma snakeSeq_lt (n k : Nat) (hn : 0 < n) : snakeSeq n k < n := by
  unfold snakeSeq
  have hr : k % (2 * n) < 2 * n := Nat.mod_lt _ (by omega)
  split_ifs <;> first | contradiction | omega

/-- C3: for every participant count `n > 0` and every pick count `t`,
`snake_draft t n` is element `t + 1` of the snake seat sequence
`0,1,...,n-1,n-1,...,1,0,0,1,...`: called with the current pick count it
returns the seat of the next pick. -/
theorem snake_draft_next_seat (n t : Nat) (hn : 0 < n) :
    snake_draft t n = snakeSeq n (t + 1) :=
  snakeLoop_eq_snakeSeq n hn (t + 1)

theorem snake_draft_next_seat_witness :
    0 < 5 ∧ snake_draft 7 5 = snakeSeq 5 (7 + 1) ∧ snake_draft 7 5 = 1 :=
  ⟨by decide, snake_draft_next_seat 5 7 (by decide), by decide⟩

/-- C9: `linear_draft t n = (t + 1) % n`; over any `n` consecutive picks the
rotation visits every seat in `[0, n)` exactly once (it is injective on a
window of length `n`), and the seat sequence is periodic with period `n`. -/
theorem linear_draft_spec (n t : Nat) (hn : 0 < n) :
    linear_draft t n = (t + 1) % n
    ∧ (∀ i j, i < n → j < n → linear_draft (t + i) n = linear_draft (t + j) n → i = j)
    ∧ linear_draft (t + n) n = linear_draft t n := by
  refine ⟨rfl, ?_, ?_⟩
  · intro i j hi hj h
    unfold linear_draft at h
    rcases le_or_lt i j with hij | hij
    · have hmod : (t + i + 1) % n = (t + j + 1) % n := h
      have hdvd : n ∣ (t + j + 1) - (t + i + 1) :=
        (Nat.modEq_iff_dvd' (by omega)).mp hmod
      have : n ∣ j - i := by
        have : (t + j + 1) - (t + i + 1) = j - i := by omega
        rwa [this] at hdvd
      have := Nat.eq_zero_of_dvd_of_lt this
      omega
    · have hmod : (t + j + 1) % n = (t + i + 1) % n := h.symm
      have hdvd : n ∣ (t + i + 1) - (t + j + 1) :=
        (Nat.modEq_iff_dvd' (by omega)).mp hmod
      have : n ∣ i - j := by
        have : (t + i + 1) - (t + j + 1) = i - j := by omega
        rwa [this] at hdvd
      have := Nat.eq_zero_of_dvd_of_lt this
      omega
  · unfold linear_draft
    have : t + n + 1 = t + 1 + n := by omega
    rw [this, Nat.add_mod_right]

theorem linear_draft_spec_witness :
    0 < 5 ∧ (linear_draft 4 5 = (4 + 1) % 5
      ∧ (∀ i j, i < 5 → j < 5 → linear_draft (4 + i) 5 = linear_draft (4 + j) 5 → i = j)
      ∧ linear_draft (4 + 5) 5 = linear_draft 4 5) :=
  ⟨by decide, linear_draft_spec 5 4 (by decide)⟩

/-! ## lib.rs — data model

`ActivePlayer` from src/lib.rs.  A `Draftable` (`Box<dyn DraftItem>`) is
embedded as its `name()` string, the only observation the engine makes. -/

structure ActivePlayer where
  picks : List String
  queue : List String
  id : Nat
deriving DecidableEq

inductive LeagueError where
  | PlayerNotFoundError
  | DraftableNotFoundError
  | DraftableInUseError
  | PlayerPicksEmptyError
  | PlayerQueueEmptyError
  | LeagueActiveError
  | LeagueInactiveError
  | NoPicksError
deriving DecidableEq

/-- `League` from src/lib.rs.  `output : Option Nat` stands for the
`Option<serenity::ChannelId>` field, which the engine never reads. -/
structure League where
  id : Nat
  players : List ActivePlayer
  output : Option Nat
  name : String
  active : Bool
  current_seat : Nat
  total_picks : Nat
  draft_type : DraftType
  final_pick : Nat
deriving DecidableEq

/-- Models `iter().position(|i| i.name() == s)` followed by `remove(idx)`:
removes the first element equal to `s` and returns it. -/
def removeFirst : List String → String → Option String × List String
  | [], _ => (none, [])
  | x :: xs, s =>
    if x = s then (some x, xs)
    else
      let r := removeFirst xs s
      (r.1, x :: r.2)

def ActivePlayer.add_to_queue (p : ActivePlayer) (item : String) : ActivePlayer :=
  { p with queue := p.queue ++ [item] }

def ActivePlayer.lock_in (p : ActivePlayer) (item : String) : ActivePlayer :=
  { p with picks := p.picks ++ [item] }

def ActivePlayer.first_in_queue (p : ActivePlayer) : Option String × ActivePlayer :=
  match p.queue with
  | [] => (none, p)
  | x :: xs => (some x, { p with queue := xs })

def ActivePlayer.delete_from_queue (p : ActivePlayer) (s : String) :
    Option String × ActivePlayer :=
  let r := removeFirst p.queue s
  (r.1, { p with queue := r.2 })

def ActivePlayer.delete_from_picks (p : ActivePlayer) (s : String) :
    Option String × ActivePlayer :=
  let r := removeFirst p.picks s
  (r.1, { p with picks := r.2 })

/-- Stand-in for the value of an out-of-bounds `Vec` index; the Rust code
panics there, and no reachable state indexes out of bounds. -/
def defaultPlayer : ActivePlayer := ⟨[], [], 0⟩

/-- `League::new`.  `final_pick = players.len() * team_size - 1` in `u32`
arithmetic; the subtraction underflows (panics) only when the product is 0,
which the library's documented precondition (non-empty `users`,
positive `team_size`) excludes. -/
def League.new (users : List Nat) (id : Nat) (name : String) (output : Option Nat)
    (draft_type : DraftType) (team_size : Nat) : League :=
  { id := id
    players := users.map (fun u => ⟨[], [], u⟩)
    output := output
    name := name
    active := false
    current_seat := 0
    total_picks := 0
    draft_type := draft_type
    final_pick := users.length * team_size - 1 }

/-- The `match self.draft_type` inside `League::advance`. -/
def nextSeat (dt : DraftType) (total_picks n : Nat) : Nat :=
  match dt with
  | .Snake => snake_draft total_picks n
  | .Linear => linear_draft total_picks n

/-- `League::advance`.  Returns the index of the player the Rust code
returns a mutable reference to (`&mut self.players[next]`), or `none` for
the completion signal. -/
def League.advance (l : League) : Option Nat × League :=
  if l.total_picks = l.final_pick then
    (none, { l with active := false })
  else
    let next := nextSeat l.draft_type l.total_picks l.players.length
    (some next, { l with current_seat := next, total_picks := l.total_picks + 1 })

def League.activate (l : League) : League := { l with active := true }

def League.deactivate (l : League) : League := { l with active := false }

/-- `League::lock_private`, with an explicit recursion budget.  Each
recursive call is entered only after popping one element off some player's
queue, and queues never grow during the call, so the recursion depth is at
most the total queued-item count; `lock_private` below passes a budget
that can therefore never be exhausted. -/
def League.lockGo : Nat → League → String → List (Nat × String) →
    List (Nat × String) × League
  | 0, l, _, acc => (acc, l)
  | fuel + 1, l, pick, acc =>
    let l1 : League :=
      { l with players := l.players.map (fun p => (p.delete_from_queue pick).2) }
    let cur := l1.players.getD l1.current_seat defaultPlayer
    let acc1 := acc ++ [(cur.id, pick)]
    let l2 : League :=
      { l1 with players := l1.players.set l1.current_seat (cur.lock_in pick) }
    match l2.advance with
    | (none, l3) => (acc1, l3)
    | (some next, l3) =>
      let np := l3.players.getD next defaultPlayer
      match np.first_in_queue with
      | (none, _) => (acc1, l3)
      | (some q, np2) =>
        League.lockGo fuel { l3 with players := l3.players.set next np2 } q acc1

/-- Total number of queued items, an upper bound for `lockGo`'s recursion
depth. -/
def totalQueueLen (l : League) : Nat :=
  (l.players.map (fun p => p.queue.length)).sum

def League.lock_private (l : League) (pick : String) (acc : List (Nat × String)) :
    List (Nat × String) × League :=
  League.lockGo (totalQueueLen l + 1) l pick acc

/-- `League::lock`.  The error case performs no mutation, so the original
state is returned alongside the error. -/
def League.lock (l : League) (pick : String) :
    Except LeagueError (List (Nat × String)) × League :=
  if !l.active then (.error .LeagueInactiveError, l)
  else
    let r := l.lock_private pick []
    (.ok r.1, r.2)

/-- `League::get_player_mut` / `get_player` resolved to the index of the
first player with the given id. -/
def findPlayerIdx : List ActivePlayer → Nat → Option Nat
  | [], _ => none
  | p :: ps, uid => if p.id = uid then some 0 else (findPlayerIdx ps uid).map (· + 1)

def League.get_player_idx (l : League) (uid : Nat) : Option Nat :=
  findPlayerIdx l.players uid

/-- The pick list built by `League::all_picks` (player order, pick order). -/
def League.all_picks_list (l : League) : List String :=
  l.players.foldr (fun p acc => p.picks ++ acc) []

/-- `League::all_picks`. -/
def League.all_picks (l : League) : Except LeagueError (List String) :=
  if l.all_picks_list.isEmpty then .error .NoPicksError else .ok l.all_picks_list

/-- `League::waiver`.  Follows the source's order of checks: active flag,
then pool-uniqueness against all locked picks, then participant lookup,
then removal of the outgoing item.  Every error path in the source mutates
nothing, so it returns the input state. -/
def League.waiver (l : League) (uid : Nat) (waivered_from waivered_for : String) :
    Except LeagueError (List String) × League :=
  if l.active then (.error .LeagueActiveError, l)
  else
    let all_picks := match l.all_picks with
      | .ok picks => picks
      | .error _ => []
    if all_picks.any (fun p => p == waivered_for) then (.error .DraftableInUseError, l)
    else
      match l.get_player_idx uid with
      | some i =>
        let p := l.players.getD i defaultPlayer
        let r := p.delete_from_picks waivered_from
        match r.1 with
        | some _ =>
          let p2 := r.2.lock_in waivered_for
          (.ok p2.picks, { l with players := l.players.set i p2 })
        | none => (.error .DraftableNotFoundError, l)
      | none => (.error .PlayerNotFoundError, l)

/-- `League::trade`.  The source deletes `item1` from `player1` (a mutation
of the engine state) before looking up `player2` or `item2`; the embedding
mirrors that, so a late error returns the state with `player1` already
mutated.  The `unwrap()`ed re-lookups of the success path are mapped to
no-ops when the lookup fails (the Rust code would panic there, which is
unreachable because the same lookups just succeeded). -/
def League.trade (l : League) (user1 : Nat) (item1 : String) (user2 : Nat)
    (item2 : String) :
    Except LeagueError (List String × List String) × League :=
  if l.active then (.error .LeagueActiveError, l)
  else
    match l.get_player_idx user1 with
    | none => (.error .PlayerNotFoundError, l)
    | some i1 =>
      let p1 := l.players.getD i1 defaultPlayer
      let r1 := p1.delete_from_picks item1
      match r1.1 with
      | none => (.error .DraftableNotFoundError, l)
      | some it1 =>
        let la : League := { l with players := l.players.set i1 r1.2 }
        match la.get_player_idx user2 with
        | none => (.error .PlayerNotFoundError, la)
        | some i2 =>
          let p2 := la.players.getD i2 defaultPlayer
          let r2 := p2.delete_from_picks item2
          match r2.1 with
          | none => (.error .DraftableNotFoundError, la)
          | some it2 =>
            let lb : League := { la with players := la.players.set i2 r2.2 }
            let lc : League :=
              match lb.get_player_idx user1 with
              | some j1 =>
                { lb with players :=
                    lb.players.set j1 ((lb.players.getD j1 defaultPlayer).lock_in it2) }
              | none => lb
            let ld : League :=
              match lc.get_player_idx user2 with
              | some j2 =>
                { lc with players :=
                    lc.players.set j2 ((lc.players.getD j2 defaultPlayer).lock_in it1) }
              | none => lc
            let picks1 := match ld.get_player_idx user1 with
              | some j => (ld.players.getD j defaultPlayer).picks
              | none => []
            let picks2 := match ld.get_player_idx user2 with
              | some j => (ld.players.getD j defaultPlayer).picks
              | none => []
            (.ok (picks1, picks2), ld)

/-- `League::add_to_player_queue`. -/
def League.add_to_player_queue (l : League) (uid : Nat) (item : String) :
    Except LeagueError (List String) × League :=
  match l.get_player_idx uid with
  | some i =>
    let p := (l.players.getD i defaultPlayer).add_to_queue item
    (.ok p.queue, { l with players := l.players.set i p })
  | none => (.error .PlayerNotFoundError, l)

/-- `League::delete_from_player_queue`. -/
def League.delete_from_player_queue (l : League) (uid : Nat) (name : String) :
    Except LeagueError String × League :=
  match l.get_player_idx uid with
  | some i =>
    let p := l.players.getD i defaultPlayer
    let r := p.delete_from_queue name
    match r.1 with
    | some item => (.ok item, { l with players := l.players.set i r.2 })
    | none => (.error .DraftableNotFoundError, l)
  | none => (.error .PlayerNotFoundError, l)

/-- `League::clear_player_queue`. -/
def League.clear_player_queue (l : League) (uid : Nat) :
    Except LeagueError (List String) × League :=
  match l.get_player_idx uid with
  | some i =>
    let p := l.players.getD i defaultPlayer
    if p.queue.isEmpty then (.error .PlayerQueueEmptyError, l)
    else (.ok p.queue, { l with players := l.players.set i { p with queue := [] } })
  | none => (.error .PlayerNotFoundError, l)

/-- `League::add_to_player_picks`. -/
def League.add_to_player_picks (l : League) (uid : Nat) (pick : String) :
    Except LeagueError (List String) × League :=
  let all_picks := match l.all_picks with
    | .ok picks => picks
    | .error _ => []
  if all_picks.any (fun p => p == pick) then (.error .DraftableInUseError, l)
  else
    match l.get_player_idx uid with
    | some i =>
      let p := (l.players.getD i defaultPlayer).lock_in pick
      (.ok p.picks, { l with players := l.players.set i p })
    | none => (.error .PlayerNotFoundError, l)

/-- A League state reachable from a fresh `League::new` (with the
documented construction preconditions) through the engine's public
mutating operations. -/
inductive Reachable : League → Prop where
  | base (users : List Nat) (id : Nat) (name : String) (output : Option Nat)
      (dt : DraftType) (team_size : Nat) (hu : users ≠ []) (hs : 1 ≤ team_size) :
      Reachable (League.new users id name output dt team_size)
  | activate {l : League} : Reachable l → Reachable l.activate
  | deactivate {l : League} : Reachable l → Reachable l.deactivate
  | advance {l : League} : Reachable l → Reachable l.advance.2
  | lock {l : League} (pick : String) : Reachable l → Reachable (l.lock pick).2
  | waiver {l : League} (uid : Nat) (wfrom wfor : String) :
      Reachable l → Reachable (l.waiver uid wfrom wfor).2
  | trade {l : League} (u1 : Nat) (i1 : String) (u2 : Nat) (i2 : String) :
      Reachable l → Reachable (l.trade u1 i1 u2 i2).2
  | addQueue {l : League} (uid : Nat) (item : String) :
      Reachable l → Reachable (l.add_to_player_queue uid item).2
  | delQueue {l : League} (uid : Nat) (name : String) :
      Reachable l → Reachable (l.delete_from_player_queue uid name).2
  | clearQueue {l : League} (uid : Nat) :
      Reachable l → Reachable (l.clear_player_queue uid).2
  | addPicks {l : League} (uid : Nat) (pick : String) :
      Reachable l → Reachable (l.add_to_player_picks uid pick).2

/-! ## C1: trade error atomicity -/

/-- An inactive two-participant league: participant 1 holds the single
pick "A", participant 2 holds nothing. -/
def tradeBugLeague : League :=
  { id := 0, players := [⟨["A"], [], 1⟩, ⟨[], [], 2⟩], output := none, name := "L",
    active := false, current_seat := 0, total_picks := 0, draft_type := .Linear,
    final_pick := 0 }

/-- C1: `trade(1, "A", 2, "B")` on `tradeBugLeague` returns the
item-not-found error (participant 2 does not hold "B"), yet participant 1's
pick list has been emptied: the deletion of item1 happens before item2 is
validated and is not rolled back, so the trade is not all-or-nothing. -/
theorem trade_partial_mutation :
    (tradeBugLeague.trade 1 "A" 2 "B").1 = .error .DraftableNotFoundError
    ∧ (tradeBugLeague.trade 1 "A" 2 "B").2.players.map ActivePlayer.picks = [[], []]
    ∧ tradeBugLeague.players.map ActivePlayer.picks = [["A"], []] :=
  ⟨rfl, rfl, rfl⟩

/-! ## C8 / C10: waiver error behaviour -/

lemma mem_foldr_picks (ps : List ActivePlayer) (a : String) :
    a ∈ ps.foldr (fun p acc => p.picks ++ acc) [] ↔ ∃ p ∈ ps, a ∈ p.picks := by
  induction ps with
  | nil => simp
  | cons p ps ih => simp [ih]

/-- Whenever the incoming item's name is held in anyone's pick list, an
inactive league's waiver call reports the item-in-use error. -/
lemma waiver_in_use {l : League} (uid : Nat) (wfrom : String) {wfor : String}
    (hina : l.active = false) (hmem : ∃ p ∈ l.players, wfor ∈ p.picks) :
    (l.waiver uid wfrom wfor).1 = .error .DraftableInUseError := by
  have hmemL : wfor ∈ l.all_picks_list := (mem_foldr_picks l.players wfor).mpr hmem
  have hemp : l.all_picks_list.isEmpty = false := by
    cases h : l.all_picks_list with
    | nil => rw [h] at hmemL; cases hmemL
    | cons a as => rfl
  have hany : l.all_picks_list.any (fun p => p == wfor) = true :=
    List.any_eq_true.mpr ⟨wfor, hmemL, by simp⟩
  unfold League.waiver League.all_picks
  rw [hina, hemp]
  simp [hany]

/-- Every error path of `waiver` leaves the engine state unchanged. -/
lemma waiver_state (l : League) (uid : Nat) (wfrom wfor : String) :
    (l.waiver uid wfrom wfor).2 = l
    ∨ ∃ out, (l.waiver uid wfrom wfor).1 = .ok out := by
  simp only [League.waiver]
  split
  · left; rfl
  · split
    · left; rfl
    · split
      · split
        · right; exact ⟨_, rfl⟩
        · left; rfl
      · left; rfl

/-- C8: for an inactive league, `waiver` returns the item-in-use error
whenever the incoming item's name is already in any participant's pick
list, and every error return of `waiver` leaves the engine state
unchanged. -/
theorem waiver_in_use_and_errors_pure (l : League) (uid : Nat) (wfrom wfor : String)
    (hina : l.active = false) :
    ((∃ p ∈ l.players, wfor ∈ p.picks) →
      (l.waiver uid wfrom wfor).1 = .error .DraftableInUseError)
    ∧ (∀ e, (l.waiver uid wfrom wfor).1 = .error e →
      (l.waiver uid wfrom wfor).2 = l) := by
  constructor
  · exact fun hmem => waiver_in_use uid wfrom hina hmem
  · intro e he
    rcases waiver_state l uid wfrom wfor with h | ⟨out, hok⟩
    · exact h
    · rw [he] at hok; cases hok

theorem waiver_in_use_and_errors_pure_witness :
    let l : League :=
      { id := 0, players := [⟨["X"], [], 1⟩], output := none, name := "L",
        active := false, current_seat := 0, total_picks := 0,
        draft_type := .Linear, final_pick := 0 }
    ((∃ p ∈ l.players, "X" ∈ p.picks) →
      (l.waiver 1 "Y" "X").1 = .error .DraftableInUseError)
    ∧ (∀ e, (l.waiver 1 "Y" "X").1 = .error e → (l.waiver 1 "Y" "X").2 = l) :=
  waiver_in_use_and_errors_pure _ 1 "Y" "X" rfl

/-- C10: for an inactive league, when the player id matches no participant
but the incoming item's name is already in some participant's pick list,
`waiver` reports the item-in-use error, not the player-not-found error:
the pool-uniqueness check precedes the participant lookup. -/
theorem waiver_in_use_before_player_lookup (l : League) (uid : Nat)
    (wfrom wfor : String) (hina : l.active = false)
    (hnf : l.get_player_idx uid = none)
    (hmem : ∃ p ∈ l.players, wfor ∈ p.picks) :
    (l.waiver uid wfrom wfor).1 = .error .DraftableInUseError :=
  waiver_in_use uid wfrom hina hmem

theorem waiver_in_use_before_player_lookup_witness :
    let l : League :=
      { id := 0, players := [⟨["X"], [], 1⟩], output := none, name := "L",
        active := false, current_seat := 0, total_picks := 0,
        draft_type := .Linear, final_pick := 0 }
    (l.waiver 2 "Y" "X").1 = .error .DraftableInUseError :=
  waiver_in_use_before_player_lookup _ 2 "Y" "X" rfl rfl ⟨⟨["X"], [], 1⟩, by simp, by simp⟩

/-! ## C6: advance and draft completion -/

/-- State after `n` successive `advance()` calls. -/
def advanceN (l : League) : Nat → League
  | 0 => l
  | k + 1 => ((advanceN l k).advance).2

lemma nextSeat_lt (dt : DraftType) (t n : Nat) (hn : 0 < n) : nextSeat dt t n < n := by
  cases dt with
  | Snake =>
    show snakeLoop n (t + 1) < n
    rw [snakeLoop_eq_snakeSeq n hn (t + 1)]
    exact snakeSeq_lt n (t + 1) hn
  | Linear =>
    show (t + 1) % n < n
    exact Nat.mod_lt _ hn

lemma advanceN_spec (l : League) : ∀ k, l.total_picks + k ≤ l.final_pick →
    (advanceN l k).total_picks = l.total_picks + k
    ∧ (advanceN l k).final_pick = l.final_pick
    ∧ (advanceN l k).players = l.players
    ∧ (advanceN l k).draft_type = l.draft_type
    ∧ (advanceN l k).active = l.active := by
  intro k
  induction k with
  | zero => intro _; exact ⟨rfl, rfl, rfl, rfl, rfl⟩
  | succ k ih =>
    intro hk
    obtain ⟨h1, h2, h3, h4, h5⟩ := ih (by omega)
    have hne : ¬ (advanceN l k).total_picks = (advanceN l k).final_pick := by omega
    simp only [advanceN]
    unfold League.advance
    rw [if_neg hne]
    refine ⟨?_, h2, h3, h4, h5⟩
    show (advanceN l k).total_picks + 1 = l.total_picks + (k + 1)
    omega

lemma advanceN_at_final (l : League) (h0 : l.total_picks = 0) (d : Nat) :
    (advanceN l (l.final_pick + d)).total_picks = l.final_pick
    ∧ (advanceN l (l.final_pick + d)).final_pick = l.final_pick := by
  induction d with
  | zero =>
    obtain ⟨h1, h2, _, _, _⟩ := advanceN_spec l l.final_pick (by omega)
    rw [Nat.add_zero]
    exact ⟨by omega, h2⟩
  | succ d ih =>
    obtain ⟨h1, h2⟩ := ih
    have hstep : advanceN l (l.final_pick + (d + 1))
        = ((advanceN l (l.final_pick + d)).advance).2 := rfl
    rw [hstep]
    unfold League.advance
    rw [if_pos (by omega)]
    exact ⟨h1, h2⟩

/-- C6: from a fresh league with `p` participants and target size `s`
(`final_pick = p*s - 1`), each of the first `final_pick` calls to
`advance()` returns a participant (the seat computed by the configured
rotation, a valid index), call number `final_pick + 1` returns the
completion signal and deactivates the league, and so does every further
call. -/
theorem advance_completion (users : List Nat) (uid : Nat) (nm : String)
    (out : Option Nat) (dt : DraftType) (s : Nat) (hu : users ≠ []) (hs : 1 ≤ s) :
    (∀ m, 1 ≤ m → m ≤ (League.new users uid nm out dt s).final_pick →
        ((advanceN (League.new users uid nm out dt s) (m - 1)).advance).1
          = some (nextSeat dt (m - 1) users.length)
        ∧ nextSeat dt (m - 1) users.length < users.length
        ∧ (advanceN (League.new users uid nm out dt s) m).total_picks = m)
    ∧ ((advanceN (League.new users uid nm out dt s)
        (League.new users uid nm out dt s).final_pick).advance).1 = none
    ∧ ((advanceN (League.new users uid nm out dt s)
        (League.new users uid nm out dt s).final_pick).advance).2.active = false
    ∧ (∀ j, (League.new users uid nm out dt s).final_pick ≤ j →
        ((advanceN (League.new users uid nm out dt s) j).advance).1 = none) := by
  have hn : 0 < users.length := by
    cases users with
    | nil => exact absurd rfl hu
    | cons a as => simp
  have hlen : (League.new users uid nm out dt s).players.length = users.length := by
    simp [League.new]
  have h0 : (League.new users uid nm out dt s).total_picks = 0 := rfl
  refine ⟨?_, ?_, ?_, ?_⟩
  · intro m hm1 hmF
    obtain ⟨h1, h2, h3, h4, _⟩ :=
      advanceN_spec (League.new users uid nm out dt s) (m - 1) (by omega)
    have hne : ¬ (advanceN (League.new users uid nm out dt s) (m - 1)).total_picks
        = (advanceN (League.new users uid nm out dt s) (m - 1)).final_pick := by omega
    obtain ⟨g1, _, _, _, _⟩ :=
      advanceN_spec (League.new users uid nm out dt s) m (by omega)
    refine ⟨?_, nextSeat_lt dt (m - 1) users.length hn, by omega⟩
    have hdt : (League.new users uid nm out dt s).draft_type = dt := rfl
    unfold League.advance
    rw [if_neg hne]
    rw [h1, h2, h3, h4, h0, hlen, hdt]
    simp
  · obtain ⟨h1, h2, _, _, _⟩ :=
      advanceN_spec (League.new users uid nm out dt s)
        (League.new users uid nm out dt s).final_pick (by omega)
    unfold League.advance
    rw [if_pos (by omega)]
  · obtain ⟨h1, h2, _, _, _⟩ :=
      advanceN_spec (League.new users uid nm out dt s)
        (League.new users uid nm out dt s).final_pick (by omega)
    unfold League.advance
    rw [if_pos (by omega)]
  · intro j hj
    obtain ⟨h1, h2⟩ :=
      advanceN_at_final (League.new users uid nm out dt s) rfl
        (j - (League.new users uid nm out dt s).final_pick)
    have hrw : (League.new users uid nm out dt s).final_pick
        + (j - (League.new users uid nm out dt s).final_pick) = j := by omega
    rw [hrw] at h1 h2
    unfold League.advance
    rw [if_pos (by omega)]

theorem advance_completion_witness :
    ((∀ m, 1 ≤ m → m ≤ (League.new [69420, 42069] 69420 "C" none .Snake 1).final_pick →
        ((advanceN (League.new [69420, 42069] 69420 "C" none .Snake 1) (m - 1)).advance).1
          = some (nextSeat .Snake (m - 1) [69420, 42069].length)
        ∧ nextSeat .Snake (m - 1) [69420, 42069].length < [69420, 42069].length
        ∧ (advanceN (League.new [69420, 42069] 69420 "C" none .Snake 1) m).total_picks = m)
    ∧ ((advanceN (League.new [69420, 42069] 69420 "C" none .Snake 1)
        (League.new [69420, 42069] 69420 "C" none .Snake 1).final_pick).advance).1 = none
    ∧ ((advanceN (League.new [69420, 42069] 69420 "C" none .Snake 1)
        (League.new [69420, 42069] 69420 "C" none .Snake 1).final_pick).advance).2.active
          = false
    ∧ (∀ j, (League.new [69420, 42069] 69420 "C" none .Snake 1).final_pick ≤ j →
        ((advanceN (League.new [69420, 42069] 69420 "C" none .Snake 1) j).advance).1 = none))
    ∧ ((League.new [69420, 42069] 69420 "C" none .Snake 1).advance).1 = some 1 :=
  ⟨advance_completion [69420, 42069] 69420 "C" none .Snake 1 (by decide) (by decide),
    by decide⟩

/-! ## C2: the lock cascade -/

lemma removeFirst_not_mem (xs : List String) (s : String) (h : s ∉ xs) :
    removeFirst xs s = (none, xs) := by
  induction xs with
  | nil => rfl
  | cons x xs ih =>
    have hxs : x ≠ s := fun he => h (he ▸ List.mem_cons_self x xs)
    have hs : s ∉ xs := fun hm => h (List.mem_cons_of_mem x hm)
    simp [removeFirst, hxs, ih hs]

lemma getElem?_map_delete_id (ps : List ActivePlayer) (i : Nat) (pick : String) :
    ((Option.map (fun p => (p.delete_from_queue pick).2) ps[i]?).getD defaultPlayer).id
      = (ps[i]?.getD defaultPlayer).id := by
  cases h : ps[i]? with
  | none => rfl
  | some p => rfl

lemma lockGo_acc : ∀ (fuel : Nat) (l : League) (pick : String)
    (acc : List (Nat × String)),
    ∃ t, (League.lockGo fuel l pick acc).1 = acc ++ t := by
  intro fuel
  induction fuel with
  | zero => intro l pick acc; exact ⟨[], (List.append_nil acc).symm⟩
  | succ fuel ih =>
    intro l pick acc
    simp only [League.lockGo]
    split
    · exact ⟨_, rfl⟩
    · split
      · exact ⟨_, rfl⟩
      · rename_i next l3 q np2 heq2
        obtain ⟨t, ht⟩ := ih _ q _
        rw [List.append_assoc] at ht
        exact ⟨_, ht⟩

lemma lockGo_cons (fuel : Nat) (l : League) (pick : String)
    (acc : List (Nat × String)) :
    ∃ t, (League.lockGo (fuel + 1) l pick acc).1
      = acc ++ ((l.players.getD l.current_seat defaultPlayer).id, pick) :: t := by
  simp only [League.lockGo]
  split
  · exact ⟨[], by simp [getElem?_map_delete_id]⟩
  · split
    · exact ⟨[], by simp [getElem?_map_delete_id]⟩
    · rename_i next l3 q np2 heq2
      obtain ⟨t, ht⟩ := lockGo_acc fuel _ q _
      refine ⟨t, ?_⟩
      rw [ht]
      simp [getElem?_map_delete_id]

/-- The first record of a successful `lock` is always
(current player's id, the supplied item's name). -/
lemma lock_head (l : League) (pick : String) (hact : l.active = true) :
    ∃ rest, (l.lock pick).1
      = .ok (((l.players.getD l.current_seat defaultPlayer).id, pick) :: rest) := by
  unfold League.lock
  rw [hact]
  simp only [Bool.not_true, Bool.false_eq_true, if_false]
  unfold League.lock_private
  obtain ⟨t, ht⟩ := lockGo_cons (totalQueueLen l) l pick []
  exact ⟨t, by rw [ht]; rfl⟩

/-- C2: a successful `lock` records (current player id, item name) first;
and in the spec's cascade scenario — participant A on the clock with an
empty queue, participant B next with queue front `q` — locking `X` for A
returns exactly `[(A, X), (B, q)]`, appends `X` to A's picks and `q` to
B's picks, pops `q` off B's queue, and advances the turn twice. -/
theorem lock_cascade (l : League) (pick : String) (hact : l.active = true)
    (aid bid lid : Nat) (lout : Option Nat) (lnm : String)
    (X q : String) (qs apicks bpicks : List String) (F : Nat)
    (hX : X ∉ q :: qs) (hq : q ∉ qs) (hF : 2 ≤ F) :
    (∃ rest, (l.lock pick).1
      = .ok (((l.players.getD l.current_seat defaultPlayer).id, pick) :: rest))
    ∧ (League.lock
        { id := lid, players := [⟨apicks, [], aid⟩, ⟨bpicks, q :: qs, bid⟩],
          output := lout, name := lnm, active := true, current_seat := 0,
          total_picks := 0, draft_type := .Linear, final_pick := F } X)
      = (.ok [(aid, X), (bid, q)],
        { id := lid, players := [⟨apicks ++ [X], [], aid⟩, ⟨bpicks ++ [q], qs, bid⟩],
          output := lout, name := lnm, active := true, current_seat := 0,
          total_picks := 2, draft_type := .Linear, final_pick := F }) := by
  refine ⟨lock_head l pick hact, ?_⟩
  have hXq : X ∉ qs := fun hm => hX (List.mem_cons_of_mem q hm)
  have hqX : q ≠ X := fun he => hX (he ▸ List.mem_cons_self q qs)
  have h0F : ¬ (0 = F) := by omega
  have h1F : ¬ (1 = F) := by omega
  simp [League.lock, League.lock_private, totalQueueLen, League.lockGo,
    League.advance, nextSeat, linear_draft, ActivePlayer.delete_from_queue,
    ActivePlayer.first_in_queue, ActivePlayer.lock_in, defaultPlayer,
    removeFirst_not_mem qs X hXq, removeFirst_not_mem qs q hq,
    removeFirst, hqX, h0F, h1F]

theorem lock_cascade_witness :
    let lA : League :=
      { id := 9, players := [⟨[], [], 1⟩, ⟨[], ["Q"], 2⟩],
        output := none, name := "L", active := true, current_seat := 0,
        total_picks := 0, draft_type := .Linear, final_pick := 2 }
    (∃ rest, (lA.lock "X").1
      = .ok (((lA.players.getD lA.current_seat defaultPlayer).id, "X") :: rest))
    ∧ (League.lock
        { id := 9, players := [⟨[], [], 1⟩, ⟨[], ["Q"], 2⟩],
          output := none, name := "L", active := true, current_seat := 0,
          total_picks := 0, draft_type := .Linear, final_pick := 2 } "X")
      = (.ok [(1, "X"), (2, "Q")],
        { id := 9, players := [⟨["X"], [], 1⟩, ⟨["Q"], [], 2⟩],
          output := none, name := "L", active := true, current_seat := 0,
          total_picks := 2, draft_type := .Linear, final_pick := 2 }) := by
  have h := lock_cascade
    { id := 9, players := [⟨[], [], 1⟩, ⟨[], ["Q"], 2⟩],
      output := none, name := "L", active := true, current_seat := 0,
      total_picks := 0, draft_type := .Linear, final_pick := 2 } "X" rfl
    1 2 9 none "L" "X" "Q" [] [] [] 2 (by decide) (by decide) (by decide)
  simpa using h

/-! ## C7: locked names vanish from every queue -/

lemma removeFirst_sublist (xs : List String) (s : String) :
    List.Sublist (removeFirst xs s).2 xs := by
  induction xs with
  | nil => simp [removeFirst]
  | cons x xs ih =>
    by_cases h : x = s
    · simp only [removeFirst, if_pos h]
      exact List.sublist_cons_self x xs
    · simp only [removeFirst, if_neg h]
      exact List.Sublist.cons₂ x ih

lemma removeFirst_not_mem_self (xs : List String) (s : String) (h : xs.Nodup) :
    s ∉ (removeFirst xs s).2 := by
  induction xs with
  | nil => simp [removeFirst]
  | cons x xs ih =>
    obtain ⟨hx, hxs⟩ := List.nodup_cons.mp h
    by_cases hc : x = s
    · simp only [removeFirst, if_pos hc]
      exact fun hm => hx (hc ▸ hm)
    · simp only [removeFirst, if_neg hc]
      intro hm
      rcases List.mem_cons.mp hm with h1 | h1
      · exact hc h1.symm
      · exact ih hxs h1

lemma queue_prop_getD (P : List String → Prop) (hnil : P []) :
    ∀ (ps : List ActivePlayer) (i : Nat), (∀ p ∈ ps, P p.queue) →
      P ((ps.getD i defaultPlayer).queue)
  | [], _, _ => hnil
  | p :: ps, 0, hP => hP p (List.mem_cons_self p ps)
  | p :: ps, i + 1, hP =>
    queue_prop_getD P hnil ps i (fun x hx => hP x (List.mem_cons_of_mem p hx))

lemma set_queue_prop (P : List String → Prop) (ps : List ActivePlayer) (i : Nat)
    (a : ActivePlayer) (hP : ∀ p ∈ ps, P p.queue) (ha : P a.queue) :
    ∀ p ∈ ps.set i a, P p.queue :=
  fun p hp => (List.mem_or_eq_of_mem_set hp).elim (fun h => hP p h) (fun h => h ▸ ha)

lemma advance_snd_players (l : League) {o : Option Nat} {l3 : League}
    (h : l.advance = (o, l3)) : l3.players = l.players := by
  have hbase : (l.advance).2.players = l.players := by
    unfold League.advance; split <;> rfl
  rw [h] at hbase
  exact hbase

lemma first_in_queue_some {p np2 : ActivePlayer} {q : String}
    (h : p.first_in_queue = (some q, np2)) : p.queue = q :: np2.queue := by
  unfold ActivePlayer.first_in_queue at h
  cases hq : p.queue with
  | nil => rw [hq] at h; cases h
  | cons x xs =>
    rw [hq] at h
    have h1 : some x = some q := congrArg Prod.fst h
    have h2 : ({ p with queue := xs } : ActivePlayer) = np2 := congrArg Prod.snd h
    have hx : x = q := Option.some.inj h1
    have hxs : np2.queue = xs := by rw [← h2]
    rw [hx, hxs]

lemma lockGo_names_absent : ∀ (fuel : Nat) (l : League) (pick : String)
    (acc : List (Nat × String)),
    (∀ p ∈ l.players, p.queue.Nodup) →
    (∀ pr ∈ acc, ∀ p ∈ l.players, pr.2 ∉ p.queue) →
    (∀ pr ∈ (League.lockGo fuel l pick acc).1,
      ∀ p ∈ (League.lockGo fuel l pick acc).2.players, pr.2 ∉ p.queue) := by
  intro fuel
  induction fuel with
  | zero => intro l pick acc _ hacc; exact hacc
  | succ fuel ih =>
    intro l pick acc hnd hacc
    have hnd1 : ∀ p ∈ l.players.map (fun x => (x.delete_from_queue pick).2),
        p.queue.Nodup := by
      intro p hp
      obtain ⟨p0, hp0, rfl⟩ := List.mem_map.mp hp
      exact List.Nodup.sublist (removeFirst_sublist p0.queue pick) (hnd p0 hp0)
    have hacc1 : ∀ pr ∈ acc, ∀ p ∈ l.players.map (fun x => (x.delete_from_queue pick).2),
        pr.2 ∉ p.queue := by
      intro pr hpr p hp
      obtain ⟨p0, hp0, rfl⟩ := List.mem_map.mp hp
      exact fun hm =>
        hacc pr hpr p0 hp0 ((removeFirst_sublist p0.queue pick).mem hm)
    have hpick1 : ∀ p ∈ l.players.map (fun x => (x.delete_from_queue pick).2),
        pick ∉ p.queue := by
      intro p hp
      obtain ⟨p0, hp0, rfl⟩ := List.mem_map.mp hp
      exact removeFirst_not_mem_self p0.queue pick (hnd p0 hp0)
    simp only [League.lockGo]
    have hnd2 := set_queue_prop (fun ql => ql.Nodup)
      (l.players.map (fun x => (x.delete_from_queue pick).2)) l.current_seat
      (((l.players.map (fun x => (x.delete_from_queue pick).2)).getD l.current_seat
        defaultPlayer).lock_in pick) hnd1
      (queue_prop_getD (fun ql => ql.Nodup) List.nodup_nil _ _ hnd1)
    have hacc2 : ∀ pr ∈ acc,
        ∀ p ∈ (l.players.map (fun x => (x.delete_from_queue pick).2)).set l.current_seat
          (((l.players.map (fun x => (x.delete_from_queue pick).2)).getD l.current_seat
            defaultPlayer).lock_in pick), pr.2 ∉ p.queue := by
      intro pr hpr
      exact set_queue_prop (fun ql => pr.2 ∉ ql) _ _ _ (fun p hp => hacc1 pr hpr p hp)
        (queue_prop_getD (fun ql => pr.2 ∉ ql) (List.not_mem_nil pr.2) _ _
          (fun p hp => hacc1 pr hpr p hp))
    have hpick2 : ∀ p ∈ (l.players.map (fun x => (x.delete_from_queue pick).2)).set
        l.current_seat
        (((l.players.map (fun x => (x.delete_from_queue pick).2)).getD l.current_seat
          defaultPlayer).lock_in pick), pick ∉ p.queue :=
      set_queue_prop (fun ql => pick ∉ ql) _ _ _ hpick1
        (queue_prop_getD (fun ql => pick ∉ ql) (List.not_mem_nil pick) _ _ hpick1)
    split
    · rename_i l3 heq
      have hpl : l3.players = (l.players.map (fun x => (x.delete_from_queue pick).2)).set
          l.current_seat
          (((l.players.map (fun x => (x.delete_from_queue pick).2)).getD l.current_seat
            defaultPlayer).lock_in pick) := advance_snd_players _ heq
      intro pr hpr p hp
      rw [hpl] at hp
      rcases List.mem_append.mp hpr with h1 | h1
      · exact hacc2 pr h1 p hp
      · rcases List.mem_cons.mp h1 with h2 | h2
        · rw [h2]; exact hpick2 p hp
        · cases h2
    · split
      · rename_i next l3 heq x snd heq2
        have hpl : l3.players = (l.players.map (fun x => (x.delete_from_queue pick).2)).set
            l.current_seat
            (((l.players.map (fun x => (x.delete_from_queue pick).2)).getD l.current_seat
              defaultPlayer).lock_in pick) := advance_snd_players _ heq
        intro pr hpr p hp
        rw [hpl] at hp
        rcases List.mem_append.mp hpr with h1 | h1
        · exact hacc2 pr h1 p hp
        · rcases List.mem_cons.mp h1 with h2 | h2
          · rw [h2]; exact hpick2 p hp
          · cases h2
      · rename_i xp1 next l3 heq xp2 q np2 heq2
        have hpl : l3.players = (l.players.map (fun x => (x.delete_from_queue pick).2)).set
            l.current_seat
            (((l.players.map (fun x => (x.delete_from_queue pick).2)).getD l.current_seat
              defaultPlayer).lock_in pick) := advance_snd_players _ heq
        have hnp := first_in_queue_some heq2
        have hnp2sub : List.Sublist np2.queue (l3.players.getD next defaultPlayer).queue := by
          rw [hnp]; exact List.sublist_cons_self q np2.queue
        have hnd3 : ∀ p ∈ l3.players, p.queue.Nodup := by
          intro p hp; exact hnd2 p (hpl ▸ hp)
        have hnd4 : ∀ p ∈ l3.players.set next np2, p.queue.Nodup :=
          set_queue_prop (fun ql => ql.Nodup) _ _ _ hnd3
            (List.Nodup.sublist hnp2sub
              (queue_prop_getD (fun ql => ql.Nodup) List.nodup_nil _ _ hnd3))
        have hacc4 : ∀ pr ∈ acc ++
            [((((l.players.map (fun x => (x.delete_from_queue pick).2)).getD
              l.current_seat defaultPlayer)).id, pick)],
            ∀ p ∈ l3.players.set next np2, pr.2 ∉ p.queue := by
          intro pr hpr
          have habs3 : ∀ p ∈ l3.players, pr.2 ∉ p.queue := by
            intro p hp
            rcases List.mem_append.mp hpr with h1 | h1
            · exact hacc2 pr h1 p (hpl ▸ hp)
            · rcases List.mem_cons.mp h1 with h2 | h2
              · rw [h2]; exact hpick2 p (hpl ▸ hp)
              · cases h2
          exact set_queue_prop (fun ql => pr.2 ∉ ql) _ _ _ habs3
            (fun hm => (queue_prop_getD (fun ql => pr.2 ∉ ql)
              (List.not_mem_nil pr.2) _ _ habs3) (hnp2sub.mem hm))
        exact ih _ q _ hnd4 hacc4

/-- C7: if no participant's queue holds two items with the same name, then
after a successful `lock` every name recorded in the returned sequence is
absent from every participant's queue — including participants who were
never on the clock. -/
theorem lock_clears_locked_names (l : League) (pick : String)
    (out : List (Nat × String))
    (hnd : ∀ p ∈ l.players, p.queue.Nodup)
    (hact : l.active = true)
    (hout : (l.lock pick).1 = .ok out) :
    ∀ pr ∈ out, ∀ p ∈ (l.lock pick).2.players, pr.2 ∉ p.queue := by
  unfold League.lock at hout ⊢
  rw [hact] at hout ⊢
  simp only [Bool.not_true, Bool.false_eq_true, if_false] at hout ⊢
  have hmain := lockGo_names_absent (totalQueueLen l + 1) l pick [] hnd
    (fun pr hpr => absurd hpr (List.not_mem_nil pr))
  have hok : League.lock_private l pick [] =
      ((League.lock_private l pick []).1, (League.lock_private l pick []).2) := rfl
  have hout2 : (League.lock_private l pick []).1 = out := by
    have := congrArg (fun x : Except LeagueError (List (Nat × String)) =>
      match x with | .ok v => v | .error _ => []) hout
    simpa using this
  intro pr hpr p hp
  exact hmain pr (hout2 ▸ hpr) p hp

theorem lock_clears_locked_names_witness :
    ((League.lock
        { id := 9, players := [⟨[], ["B"], 1⟩, ⟨[], ["B", "C"], 2⟩],
          output := none, name := "L", active := true, current_seat := 0,
          total_picks := 0, draft_type := .Snake, final_pick := 1 } "B")).1
      = .ok [(1, "B"), (2, "C")]
    ∧ (∀ pr ∈ [((1:Nat), "B"), (2, "C")],
      ∀ p ∈ ((League.lock
        { id := 9, players := [⟨[], ["B"], 1⟩, ⟨[], ["B", "C"], 2⟩],
          output := none, name := "L", active := true, current_seat := 0,
          total_picks := 0, draft_type := .Snake, final_pick := 1 } "B")).2.players,
      pr.2 ∉ p.queue) :=
  ⟨rfl, lock_clears_locked_names
    { id := 9, players := [⟨[], ["B"], 1⟩, ⟨[], ["B", "C"], 2⟩],
      output := none, name := "L", active := true, current_seat := 0,
      total_picks := 0, draft_type := .Snake, final_pick := 1 } "B"
    [(1, "B"), (2, "C")] (by decide) rfl rfl⟩

/-! ## C4: counters and draft completion -/

lemma advance_some {l l3 : League} {n : Nat} (h : l.advance = (some n, l3)) :
    l3.total_picks = l.total_picks + 1 ∧ l3.final_pick = l.final_pick
    ∧ l.total_picks ≠ l.final_pick := by
  unfold League.advance at h
  split at h
  · injection h with h1 h2
    cases h1
  · rename_i hne
    injection h with h1 h2
    exact ⟨by rw [← h2], by rw [← h2], hne⟩

lemma advance_none {l l3 : League} (h : l.advance = (none, l3)) :
    l3.total_picks = l.total_picks ∧ l3.final_pick = l.final_pick := by
  unfold League.advance at h
  split at h
  · injection h with h1 h2
    exact ⟨by rw [← h2], by rw [← h2]⟩
  · injection h with h1 h2
    cases h1

lemma lockGo_counters : ∀ (fuel : Nat) (l : League) (pick : String)
    (acc : List (Nat × String)),
    (League.lockGo fuel l pick acc).2.final_pick = l.final_pick
    ∧ (l.total_picks ≤ l.final_pick →
      (League.lockGo fuel l pick acc).2.total_picks ≤ l.final_pick) := by
  intro fuel
  induction fuel with
  | zero => intro l pick acc; exact ⟨rfl, fun h => h⟩
  | succ fuel ih =>
    intro l pick acc
    simp only [League.lockGo]
    split
    · rename_i l3 heq
      obtain ⟨ht, hf⟩ := advance_none heq
      dsimp only at ht hf
      refine ⟨hf, fun h => ?_⟩
      show l3.total_picks ≤ l.final_pick
      omega
    · split
      · rename_i xp1 next l3 heq xp2 snd heq2
        obtain ⟨ht, hf, hne⟩ := advance_some heq
        dsimp only at ht hf hne
        refine ⟨hf, fun h => ?_⟩
        show l3.total_picks ≤ l.final_pick
        omega
      · rename_i xp1 next l3 heq xp2 q np2 heq2
        obtain ⟨ht, hf, hne⟩ := advance_some heq
        dsimp only at ht hf hne
        obtain ⟨ihf, iht⟩ := ih { l3 with players := l3.players.set next np2 } q
          (acc ++ [(((l.players.map (fun x => (x.delete_from_queue pick).2)).getD
            l.current_seat defaultPlayer).id, pick)])
        dsimp only at ihf iht
        refine ⟨by rw [ihf]; exact hf, fun h => ?_⟩
        have h3 : l3.total_picks ≤ l3.final_pick := by omega
        have h4 := iht h3
        omega

lemma lock_counters (l : League) (pick : String) (h : l.total_picks ≤ l.final_pick) :
    (l.lock pick).2.total_picks ≤ (l.lock pick).2.final_pick := by
  unfold League.lock
  split
  · exact h
  · obtain ⟨hf, ht⟩ := lockGo_counters (totalQueueLen l + 1) l pick []
    show (League.lock_private l pick []).2.total_picks
      ≤ (League.lock_private l pick []).2.final_pick
    unfold League.lock_private
    rw [hf]
    exact ht h

lemma waiver_counters (l : League) (uid : Nat) (wfrom wfor : String) :
    (l.waiver uid wfrom wfor).2.total_picks = l.total_picks
    ∧ (l.waiver uid wfrom wfor).2.final_pick = l.final_pick := by
  simp only [League.waiver]
  repeat' split
  all_goals exact ⟨rfl, rfl⟩

lemma trade_counters (l : League) (u1 : Nat) (i1 : String) (u2 : Nat) (i2 : String) :
    (l.trade u1 i1 u2 i2).2.total_picks = l.total_picks
    ∧ (l.trade u1 i1 u2 i2).2.final_pick = l.final_pick := by
  simp only [League.trade]
  repeat' split
  all_goals exact ⟨rfl, rfl⟩

lemma addQueue_counters (l : League) (uid : Nat) (item : String) :
    (l.add_to_player_queue uid item).2.total_picks = l.total_picks
    ∧ (l.add_to_player_queue uid item).2.final_pick = l.final_pick := by
  simp only [League.add_to_player_queue]
  repeat' split
  all_goals exact ⟨rfl, rfl⟩

lemma delQueue_counters (l : League) (uid : Nat) (name : String) :
    (l.delete_from_player_queue uid name).2.total_picks = l.total_picks
    ∧ (l.delete_from_player_queue uid name).2.final_pick = l.final_pick := by
  simp only [League.delete_from_player_queue]
  repeat' split
  all_goals exact ⟨rfl, rfl⟩

lemma clearQueue_counters (l : League) (uid : Nat) :
    (l.clear_player_queue uid).2.total_picks = l.total_picks
    ∧ (l.clear_player_queue uid).2.final_pick = l.final_pick := by
  simp only [League.clear_player_queue]
  repeat' split
  all_goals exact ⟨rfl, rfl⟩

lemma addPicks_counters (l : League) (uid : Nat) (pick : String) :
    (l.add_to_player_picks uid pick).2.total_picks = l.total_picks
    ∧ (l.add_to_player_picks uid pick).2.final_pick = l.final_pick := by
  simp only [League.add_to_player_picks]
  repeat' split
  all_goals exact ⟨rfl, rfl⟩

/-- C4 (amended): in every reachable state `total_picks ≤ final_pick`, and
whenever `advance` is called with `total_picks = final_pick` it deactivates
the league and returns the completion signal.  (Reaching the boundary does
not by itself deactivate; see the counterexample.) -/
theorem reachable_total_le_final (l : League) (h : Reachable l) :
    l.total_picks ≤ l.final_pick
    ∧ (l.total_picks = l.final_pick →
      l.advance = (none, { l with active := false })) := by
  have hle : l.total_picks ≤ l.final_pick := by
    induction h with
    | base users id name output dt team_size hu hs => exact Nat.zero_le _
    | activate _ ih => exact ih
    | deactivate _ ih => exact ih
    | advance h ih =>
      rename_i l0
      rcases hadv : l0.advance with ⟨o, l3⟩
      cases o with
      | none =>
        obtain ⟨ht, hf⟩ := advance_none hadv
        show l3.total_picks ≤ l3.final_pick
        omega
      | some n =>
        obtain ⟨ht, hf, hne⟩ := advance_some hadv
        show l3.total_picks ≤ l3.final_pick
        omega
    | lock pick h ih =>
      rename_i l0
      exact lock_counters l0 pick ih
    | waiver uid wfrom wfor h ih =>
      rename_i l0
      obtain ⟨h1, h2⟩ := waiver_counters l0 uid wfrom wfor
      omega
    | trade u1 i1 u2 i2 h ih =>
      rename_i l0
      obtain ⟨h1, h2⟩ := trade_counters l0 u1 i1 u2 i2
      omega
    | addQueue uid item h ih =>
      rename_i l0
      obtain ⟨h1, h2⟩ := addQueue_counters l0 uid item
      omega
    | delQueue uid name h ih =>
      rename_i l0
      obtain ⟨h1, h2⟩ := delQueue_counters l0 uid name
      omega
    | clearQueue uid h ih =>
      rename_i l0
      obtain ⟨h1, h2⟩ := clearQueue_counters l0 uid
      omega
    | addPicks uid pick h ih =>
      rename_i l0
      obtain ⟨h1, h2⟩ := addPicks_counters l0 uid pick
      omega
  refine ⟨hle, fun he => ?_⟩
  unfold League.advance
  rw [if_pos he]

theorem reachable_total_le_final_witness :
    (League.new [7] 0 "L" none .Snake 2).total_picks
      ≤ (League.new [7] 0 "L" none .Snake 2).final_pick
    ∧ ((League.new [7] 0 "L" none .Snake 2).total_picks
        = (League.new [7] 0 "L" none .Snake 2).final_pick →
      (League.new [7] 0 "L" none .Snake 2).advance
        = (none, { League.new [7] 0 "L" none .Snake 2 with active := false })) :=
  reachable_total_le_final _ (Reachable.base [7] 0 "L" none .Snake 2 (by decide) (by decide))

/-- C4 counterexample: a fresh one-participant league with target size 1
has `total_picks = final_pick = 0` from the start; activating it (a public
operation) yields a reachable state that is active while
`total_picks = final_pick`, so the claimed invariant is false. -/
theorem c4_counterexample :
    Reachable ((League.new [7] 0 "L" none .Snake 1).activate)
    ∧ ((League.new [7] 0 "L" none .Snake 1).activate).total_picks
      = ((League.new [7] 0 "L" none .Snake 1).activate).final_pick
    ∧ ((League.new [7] 0 "L" none .Snake 1).activate).active = true :=
  ⟨Reachable.activate (Reachable.base [7] 0 "L" none .Snake 1 (by decide) (by decide)),
    by decide, by decide⟩

/-! ## C5: name uniqueness across pick lists and queues -/

/-- All item names currently held inside the engine: every participant's
pick list and queue, concatenated. -/
def heldNames : List ActivePlayer → List String
  | [] => []
  | p :: ps => (p.picks ++ p.queue) ++ heldNames ps

lemma delete_from_queue_picks (p : ActivePlayer) (s : String) :
    ((p.delete_from_queue s).2).picks = p.picks := rfl

lemma delete_from_queue_queue (p : ActivePlayer) (s : String) :
    ((p.delete_from_queue s).2).queue = (removeFirst p.queue s).2 := rfl

lemma lock_in_picks (p : ActivePlayer) (s : String) :
    (p.lock_in s).picks = p.picks ++ [s] := rfl

lemma lock_in_queue (p : ActivePlayer) (s : String) :
    (p.lock_in s).queue = p.queue := rfl

lemma getD_oob : ∀ (ps : List ActivePlayer) (i : Nat), ps.length ≤ i →
    ps.getD i defaultPlayer = defaultPlayer
  | [], _, _ => rfl
  | p :: ps, 0, h => by simp at h
  | p :: ps, i + 1, h => getD_oob ps i (Nat.le_of_succ_le_succ h)

lemma count_allNames_map_delete (ps : List ActivePlayer) (pick a : String) :
    List.count a (heldNames (ps.map (fun p => (p.delete_from_queue pick).2)))
      ≤ List.count a (heldNames ps) := by
  induction ps with
  | nil => exact Nat.le_refl _
  | cons p ps ih =>
    simp only [List.map_cons, heldNames, List.count_append,
      delete_from_queue_picks, delete_from_queue_queue]
    have hdel := List.Sublist.count_le (removeFirst_sublist p.queue pick) a
    omega

lemma count_allNames_set (a : String) : ∀ (ps : List ActivePlayer) (i : Nat)
    (p2 : ActivePlayer), i < ps.length →
    List.count a (heldNames (ps.set i p2))
      + List.count a ((ps.getD i defaultPlayer).picks ++ (ps.getD i defaultPlayer).queue)
      = List.count a (heldNames ps) + List.count a (p2.picks ++ p2.queue) := by
  intro ps
  induction ps with
  | nil => intro i p2 h; simp at h
  | cons p ps ih =>
    intro i p2 hi
    cases i with
    | zero =>
      simp only [List.set_cons_zero, heldNames, List.getD_cons_zero, List.count_append]
      omega
    | succ i =>
      simp only [List.set_cons_succ, heldNames, List.getD_cons_succ, List.count_append]
      have := ih i p2 (by simpa using hi)
      simp only [List.count_append] at this
      omega

lemma first_in_queue_some_picks {p np2 : ActivePlayer} {q : String}
    (h : p.first_in_queue = (some q, np2)) : np2.picks = p.picks := by
  unfold ActivePlayer.first_in_queue at h
  cases hq : p.queue with
  | nil => rw [hq] at h; cases h
  | cons x xs =>
    rw [hq] at h
    have h2 : ({ p with queue := xs } : ActivePlayer) = np2 := congrArg Prod.snd h
    rw [← h2]

lemma lockGo_count : ∀ (fuel : Nat) (l : League) (pick : String)
    (acc : List (Nat × String)) (a : String),
    List.count a (heldNames (League.lockGo fuel l pick acc).2.players)
      ≤ List.count a (heldNames l.players) + List.count a [pick] := by
  intro fuel
  induction fuel with
  | zero => intro l pick acc a; exact Nat.le_add_right _ _
  | succ fuel ih =>
    intro l pick acc a
    have hdel := count_allNames_map_delete l.players pick a
    simp only [League.lockGo]
    have hl2 : List.count a (heldNames
        ((l.players.map (fun x => (x.delete_from_queue pick).2)).set l.current_seat
          (((l.players.map (fun x => (x.delete_from_queue pick).2)).getD l.current_seat
            defaultPlayer).lock_in pick)))
        ≤ List.count a (heldNames l.players) + List.count a [pick] := by
      by_cases hlt : l.current_seat <
          (l.players.map (fun x => (x.delete_from_queue pick).2)).length
      · have hset := count_allNames_set a
          (l.players.map (fun x => (x.delete_from_queue pick).2)) l.current_seat
          (((l.players.map (fun x => (x.delete_from_queue pick).2)).getD l.current_seat
            defaultPlayer).lock_in pick) hlt
        simp only [lock_in_picks, lock_in_queue, List.count_append] at hset
        omega
      · rw [List.set_eq_of_length_le (Nat.le_of_not_lt hlt)]
        omega
    split
    · rename_i l3 heq
      have hpl : l3.players = (l.players.map (fun x => (x.delete_from_queue pick).2)).set
          l.current_seat
          (((l.players.map (fun x => (x.delete_from_queue pick).2)).getD l.current_seat
            defaultPlayer).lock_in pick) := advance_snd_players _ heq
      rw [hpl]
      exact hl2
    · split
      · rename_i xp1 next l3 heq xp2 snd heq2
        have hpl : l3.players = (l.players.map (fun x => (x.delete_from_queue pick).2)).set
            l.current_seat
            (((l.players.map (fun x => (x.delete_from_queue pick).2)).getD l.current_seat
              defaultPlayer).lock_in pick) := advance_snd_players _ heq
        rw [hpl]
        exact hl2
      · rename_i xp1 next l3 heq xp2 q np2 heq2
        have hpl : l3.players = (l.players.map (fun x => (x.delete_from_queue pick).2)).set
            l.current_seat
            (((l.players.map (fun x => (x.delete_from_queue pick).2)).getD l.current_seat
              defaultPlayer).lock_in pick) := advance_snd_players _ heq
        have hq := first_in_queue_some heq2
        have hqp := first_in_queue_some_picks heq2
        have hnext : next < l3.players.length := by
          by_contra hc
          have hd := getD_oob l3.players next (Nat.le_of_not_lt hc)
          rw [hd] at hq
          cases hq
        have hset := count_allNames_set a l3.players next np2 hnext
        rw [hq, hqp] at hset
        have hcnt : List.count a (q :: np2.queue)
            = List.count a np2.queue + List.count a [q] := by
          simp [List.count_cons]
        simp only [List.count_append] at hset
        rw [hcnt] at hset
        have hrec := ih { l3 with players := l3.players.set next np2 } q
          (acc ++ [(((l.players.map (fun x => (x.delete_from_queue pick).2)).getD
            l.current_seat defaultPlayer).id, pick)]) a
        dsimp only at hrec
        have hl3 : List.count a (heldNames l3.players)
            ≤ List.count a (heldNames l.players) + List.count a [pick] := by
          rw [hpl]; exact hl2
        omega

lemma add_to_queue_picks (p : ActivePlayer) (s : String) :
    (p.add_to_queue s).picks = p.picks := rfl

lemma add_to_queue_queue (p : ActivePlayer) (s : String) :
    (p.add_to_queue s).queue = p.queue ++ [s] := rfl

lemma count_bound_nodup (old new : List String) (pick : String)
    (hnd : old.Nodup) (hfresh : pick ∉ old)
    (h : ∀ a, List.count a new ≤ List.count a old + List.count a [pick]) :
    new.Nodup := by
  rw [List.nodup_iff_count_le_one]
  intro a
  have h1 := List.nodup_iff_count_le_one.mp hnd a
  by_cases ha : a = pick
  · have h0 : List.count a old = 0 := List.count_eq_zero.mpr (ha ▸ hfresh)
    have hp : List.count a [pick] ≤ 1 := by
      have := List.count_le_length a [pick]
      simpa using this
    have := h a
    omega
  · have hp : List.count a [pick] = 0 := List.count_eq_zero.mpr (by simp [ha])
    have := h a
    omega

lemma findPlayerIdx_lt : ∀ (ps : List ActivePlayer) (uid : Nat) (i : Nat),
    findPlayerIdx ps uid = some i → i < ps.length := by
  intro ps
  induction ps with
  | nil => intro uid i h; cases h
  | cons p ps ih =>
    intro uid i h
    unfold findPlayerIdx at h
    split at h
    · cases h
      simp
    · cases hr : findPlayerIdx ps uid with
      | none => rw [hr] at h; cases h
      | some j =>
        rw [hr] at h
        have hj := ih uid j hr
        have : j + 1 = i := Option.some.inj h
        simp [← this]
        omega

lemma count_set_append_bound (ps : List ActivePlayer) (i : Nat) (p2 : ActivePlayer)
    (pick a : String) (hi : i < ps.length)
    (hp2 : List.count a (p2.picks ++ p2.queue)
      ≤ List.count a ((ps.getD i defaultPlayer).picks ++ (ps.getD i defaultPlayer).queue)
        + List.count a [pick]) :
    List.count a (heldNames (ps.set i p2))
      ≤ List.count a (heldNames ps) + List.count a [pick] := by
  have := count_allNames_set a ps i p2 hi
  omega

/-- C5 (amended): each of `lock`, `add_to_player_queue`, and
`add_to_player_picks` preserves the global no-duplicate-names property
provided the supplied item's name is not already held anywhere; the engine
itself does not check this for `lock` or `add_to_player_queue` (see the
counterexample). -/
theorem unique_names_preserved (l : League) (pick : String) (uid : Nat)
    (hnd : (heldNames l.players).Nodup) (hfresh : pick ∉ heldNames l.players) :
    (heldNames ((l.lock pick).2.players)).Nodup
    ∧ (heldNames ((l.add_to_player_queue uid pick).2.players)).Nodup
    ∧ (heldNames ((l.add_to_player_picks uid pick).2.players)).Nodup := by
  refine ⟨?_, ?_, ?_⟩
  · unfold League.lock
    split
    · exact hnd
    · show (heldNames (League.lock_private l pick []).2.players).Nodup
      unfold League.lock_private
      exact count_bound_nodup _ _ pick hnd hfresh
        (fun a => lockGo_count (totalQueueLen l + 1) l pick [] a)
  · unfold League.add_to_player_queue
    split
    · rename_i i heq
      apply count_bound_nodup _ _ pick hnd hfresh
      intro a
      apply count_set_append_bound l.players i _ pick a
        (findPlayerIdx_lt l.players uid i heq)
      simp only [add_to_queue_picks, add_to_queue_queue, List.count_append]
      omega
    · exact hnd
  · simp only [League.add_to_player_picks]
    split
    · exact hnd
    · split
      · rename_i i heq
        apply count_bound_nodup _ _ pick hnd hfresh
        intro a
        apply count_set_append_bound l.players i _ pick a
          (findPlayerIdx_lt l.players uid i heq)
        simp only [lock_in_picks, lock_in_queue, List.count_append]
        omega
      · exact hnd

theorem unique_names_preserved_witness :
    (heldNames ((League.lock
      { id := 3, players := [⟨["A"], ["B"], 1⟩], output := none, name := "L",
        active := false, current_seat := 0, total_picks := 0,
        draft_type := .Snake, final_pick := 0 } "Y")).2.players).Nodup
    ∧ (heldNames ((League.add_to_player_queue
      { id := 3, players := [⟨["A"], ["B"], 1⟩], output := none, name := "L",
        active := false, current_seat := 0, total_picks := 0,
        draft_type := .Snake, final_pick := 0 } 1 "Y")).2.players).Nodup
    ∧ (heldNames ((League.add_to_player_picks
      { id := 3, players := [⟨["A"], ["B"], 1⟩], output := none, name := "L",
        active := false, current_seat := 0, total_picks := 0,
        draft_type := .Snake, final_pick := 0 } 1 "Y")).2.players).Nodup :=
  unique_names_preserved
    { id := 3, players := [⟨["A"], ["B"], 1⟩], output := none, name := "L",
      active := false, current_seat := 0, total_picks := 0,
      draft_type := .Snake, final_pick := 0 } "Y" 1 (by decide) (by decide)

/-- C5 counterexample: queueing the same name twice through the public
`add_to_player_queue` operation is accepted, yielding a reachable state in
which one participant's queue holds two items named "X"; the claimed
global uniqueness invariant is false over reachable states. -/
theorem c5_counterexample :
    Reachable (((League.new [1] 0 "L" none .Snake 1).add_to_player_queue
      1 "X").2.add_to_player_queue 1 "X").2
    ∧ ¬ (heldNames ((((League.new [1] 0 "L" none .Snake 1).add_to_player_queue
      1 "X").2.add_to_player_queue 1 "X").2.players)).Nodup
    ∧ (((((League.new [1] 0 "L" none .Snake 1).add_to_player_queue
      1 "X").2.add_to_player_queue 1 "X").2.players).getD 0 defaultPlayer).queue
      = ["X", "X"] :=
  ⟨Reachable.addQueue 1 "X" (Reachable.addQueue 1 "X"
    (Reachable.base [1] 0 "L" none .Snake 1 (by decide) (by decide))),
    by decide, by decide⟩
